import Mathlib

/-!
Verification of the model-artifact versioning subsystem
(`src/ml/models/version_manager.py`, class `ModelVersionManager`).

Shallow embedding conventions:
* The filesystem layout is modelled by three association lists keyed by
  file-name stems: `artifacts` models `versions/{type}_{vid}.joblib`
  (key = `{type}_{vid}`), `metadata` models
  `metadata/{type}_{vid}_metadata.json` (key = `{type}_{vid}`; dropping the
  constant `_metadata` suffix is an injective renaming, so all collision
  structure is preserved), and `pointers` models the per-type symlink
  `{type}_current.joblib` (key = the model type, value = the stem of the
  artifact the symlink resolves to).
* Association-list order models directory enumeration order (the order
  `Path.glob` yields entries in, which Python leaves unspecified).
* `datetime.now()` inputs are threaded as explicit string parameters
  (`vid`, `now`, `cutoff`): the source derives the version id and the
  `created_at` stamp from the wall clock and compares ISO-8601 strings,
  which for timestamps of the uniform format agree with code-point
  lexicographic order, modelled by `strLt`.
* `float` metric values are idealised as `ℚ`.
* Python's `str.split(sep, 1)[1]` is `splitRest`; the glob pattern
  `{type}_*.joblib` matches exactly the stems that start with `{type}_`
  (assuming, as the repository does, type names free of glob
  metacharacters), modelled by `strStarts`.
-/

namespace VMgr

/-- Code-point value of a character, the quantity Python compares. -/
def charNat (c : Char) : Nat := c.toNat

/-- Lexicographic code-point comparison of character lists: Python `str <`. -/
def lexLt : List Char → List Char → Bool
  | [], [] => false
  | [], _ :: _ => true
  | _ :: _, [] => false
  | a :: xs, b :: ys =>
    if charNat a < charNat b then true
    else if charNat b < charNat a then false
    else lexLt xs ys

/-- Python string `<` on the underlying code points. -/
def strLt (s t : String) : Bool := lexLt s.data t.data

/-- `listStarts p l` : `l` begins with `p`. -/
def listStarts : List Char → List Char → Bool
  | [], _ => true
  | _ :: _, [] => false
  | a :: xs, b :: ys => a == b && listStarts xs ys

/-- `strStarts p s` : `s` begins with `p` (what the glob `p*` matches). -/
def strStarts (p s : String) : Bool := listStarts p.data s.data

/-- Everything after the first occurrence of a character (empty if none). -/
def afterChar (c : Char) : List Char → List Char
  | [] => []
  | x :: xs => if x == c then xs else afterChar c xs

/-- Python's `stem.split('_', 1)[1]`: the part after the first underscore. -/
def splitRest (s : String) : String := ⟨afterChar '_' s.data⟩

/-- Association-list lookup: first entry with the given key. -/
def alookup {α : Type} (l : List (String × α)) (k : String) : Option α :=
  (l.find? (fun p => p.1 == k)).map (fun p => p.2)

/-- Remove the entry with the given key (file deletion). -/
def aerase {α : Type} : List (String × α) → String → List (String × α)
  | [], _ => []
  | p :: ps, k => if p.1 == k then aerase ps k else p :: aerase ps k

/-- Write a file: overwrite in place if the key exists, else append. -/
def ainsert {α : Type} : List (String × α) → String → α → List (String × α)
  | [], k, v => [(k, v)]
  | p :: ps, k, v => if p.1 == k then (k, v) :: ps else p :: ainsert ps k v

/-- Python `dict.update`: keys of `new` overwrite, other keys persist. -/
def dictUpdate (d : List (String × ℚ)) (new : List (String × ℚ)) :
    List (String × ℚ) :=
  new.foldl (fun acc kv => ainsert acc kv.1 kv.2) d

/-- A stored artifact file: opaque blob plus st_mtime (as ISO timestamp). -/
structure ArtifactEntry where
  blob : String
  mtime : String
deriving DecidableEq, Repr

/-- One metadata JSON record, as written by `save_model`. -/
structure MetaRecord where
  model_type : String
  version_id : String
  created_at : String
  model_path : String
  performance_metrics : List (String × ℚ)
  extra : List (String × String)
  last_updated : Option String
deriving DecidableEq, Repr

/-- The durable state: versions dir, metadata dir, current-pointer symlinks. -/
structure VMState where
  artifacts : List (String × ArtifactEntry)
  metadata : List (String × MetaRecord)
  pointers : List (String × String)
deriving DecidableEq, Repr

/-- Stem of `_get_model_path`: `{type}_{vid}`. -/
def modelKey (t vid : String) : String := t ++ "_" ++ vid

def pointerOf (s : VMState) (t : String) : Option String := alookup s.pointers t

def artifactAt (s : VMState) (k : String) : Option ArtifactEntry :=
  alookup s.artifacts k

def metadataAt (s : VMState) (k : String) : Option MetaRecord :=
  alookup s.metadata k

/-- `load_model` with an explicit version id: the artifact blob, if any. -/
def load_model_version (s : VMState) (t vid : String) : Option String :=
  (artifactAt s (modelKey t vid)).map (fun e => e.blob)

/-- Metadata synthesized by `list_versions` when the JSON file is missing. -/
def basicRecord (t vid : String) (e : ArtifactEntry) : MetaRecord :=
  { model_type := t, version_id := vid, created_at := e.mtime,
    model_path := "models/versions/" ++ modelKey t vid ++ ".joblib",
    performance_metrics := [], extra := [], last_updated := none }

/-- The record `list_versions` builds for one matched artifact file. -/
def recordFor (s : VMState) (t : String) (p : String × ArtifactEntry) :
    MetaRecord :=
  let vid := splitRest p.1
  match metadataAt s (modelKey t vid) with
  | some r => r
  | none => basicRecord t vid p.2

/-- One step of a stable descending sort on `created_at`. -/
def insertDesc (r : MetaRecord) : List MetaRecord → List MetaRecord
  | [] => [r]
  | x :: xs =>
    if strLt x.created_at r.created_at then r :: x :: xs
    else x :: insertDesc r xs

/-- Python `list.sort(key=created_at, reverse=True)`: stable, descending. -/
def sortDesc (l : List MetaRecord) : List MetaRecord :=
  l.foldl (fun acc r => insertDesc r acc) []

/-- `list_versions`: glob `{type}_*.joblib`, read or synthesize metadata,
sort newest-first. -/
def list_versions (s : VMState) (t : String) : List MetaRecord :=
  sortDesc ((s.artifacts.filter (fun p => strStarts (t ++ "_") p.1)).map
    (recordFor s t))

/-- State after the current symlink is unlinked, before it is re-created:
the observable intermediate state of the pointer update. -/
def currentSwapMid (s : VMState) (t : String) : VMState :=
  { s with pointers := aerase s.pointers t }

/-- State after `symlink_to`: the pointer update's final state. -/
def currentSwapDone (s : VMState) (t target : String) : VMState :=
  let m := currentSwapMid s t
  { m with pointers := ainsert m.pointers t target }

/-- `rollback_model`. -/
def rollback_model (s : VMState) (t vid : String) : Bool × VMState :=
  if (artifactAt s (modelKey t vid)).isSome then
    (true, currentSwapDone s t (modelKey t vid))
  else (false, s)

/-- The current-version check of `delete_version`:
`current_path.exists() and current_path.resolve() == model_path.resolve()`.
`exists()` follows the symlink, so it also requires the target artifact to
be present. -/
def isCurrentGuard (s : VMState) (t vid : String) : Bool :=
  match pointerOf s t with
  | some cur => (artifactAt s cur).isSome && cur == modelKey t vid
  | none => false

/-- `delete_version`: refuse if the current symlink resolves to this
version's artifact; otherwise unlink artifact and metadata if present. -/
def delete_version (s : VMState) (t vid : String) : Bool × VMState :=
  if isCurrentGuard s t vid then (false, s)
  else
    (true, { s with artifacts := aerase s.artifacts (modelKey t vid),
                    metadata := aerase s.metadata (modelKey t vid) })

/-- The count rule of `_cleanup_old_versions`: delete every listed version
ranked beyond `maxv`, when more than `maxv` exist. -/
def cleanupCount (s : VMState) (t : String) (versions : List MetaRecord)
    (maxv : Nat) : VMState :=
  if maxv < versions.length then
    (versions.drop maxv).foldl
      (fun st r => (delete_version st t r.version_id).2) s
  else s

/-- The age rule of `_cleanup_old_versions`: delete every listed version
with `created_at < cutoff` (the loop runs over the pre-computed list). -/
def cleanupAge (s : VMState) (t : String) (versions : List MetaRecord)
    (cutoff : String) : VMState :=
  versions.foldl
    (fun st r =>
      if strLt r.created_at cutoff then (delete_version st t r.version_id).2
      else st) s

/-- `_cleanup_old_versions`: count rule, then age rule, over the version
list computed once at entry. -/
def cleanup_old_versions (s : VMState) (t : String) (maxv : Nat)
    (cutoff : String) : VMState :=
  let versions := list_versions s t
  cleanupAge (cleanupCount s t versions maxv) t versions cutoff

/-- `save_model` (successful path): dump artifact, write metadata, swap the
current symlink, run the retention sweep. `vid` and `now` stand for the
values the source derives from the wall clock; `cutoff` stands for
`now - retention_days`. -/
def save_model (s : VMState) (t blob : String)
    (extra : List (String × String)) (pm : List (String × ℚ))
    (vid now : String) (maxv : Nat) (cutoff : String) : String × VMState :=
  let key := modelKey t vid
  let record : MetaRecord :=
    { model_type := t, version_id := vid, created_at := now,
      model_path := "models/versions/" ++ key ++ ".joblib",
      performance_metrics := pm, extra := extra, last_updated := none }
  let s1 := { s with artifacts := ainsert s.artifacts key ⟨blob, now⟩ }
  let s2 := { s1 with metadata := ainsert s1.metadata key record }
  let s3 := currentSwapDone s2 t key
  (vid, cleanup_old_versions s3 t maxv cutoff)

/-- The spec taxonomy's name for an I/O failure raised while persisting. -/
inductive StorageError
  | ioFailure
deriving DecidableEq, Repr

/-- Where persistence can fail inside `save_model`, before the swap. -/
inductive SaveFail
  | atArtifact
  | atMetadata
deriving DecidableEq, Repr

/-- `save_model` with an injected persistence failure: `joblib.dump`
failing leaves the store as it was; the metadata write failing leaves the
freshly dumped artifact behind. Both re-raise before the pointer swap. -/
def save_model_attempt (s : VMState) (t blob : String)
    (extra : List (String × String)) (pm : List (String × ℚ))
    (vid now : String) (maxv : Nat) (cutoff : String) :
    Option SaveFail → (Except StorageError String) × VMState
  | none =>
    let r := save_model s t blob extra pm vid now maxv cutoff
    (Except.ok r.1, r.2)
  | some SaveFail.atArtifact => (Except.error StorageError.ioFailure, s)
  | some SaveFail.atMetadata =>
    (Except.error StorageError.ioFailure,
      { s with artifacts := ainsert s.artifacts (modelKey t vid) ⟨blob, now⟩ })

/-- `update_performance_metrics`. -/
def update_performance_metrics (s : VMState) (t vid : String)
    (pm : List (String × ℚ)) (now : String) : Bool × VMState :=
  match metadataAt s (modelKey t vid) with
  | none => (false, s)
  | some r =>
    let r' := { r with
      performance_metrics := dictUpdate r.performance_metrics pm,
      last_updated := some now }
    (true, { s with metadata := ainsert s.metadata (modelKey t vid) r' })

/-- The loop body of `get_best_performing_version`: keep the running best,
replace it only on a strictly greater score. -/
def bestStep (metric : String) (best : Option (String × ℚ))
    (r : MetaRecord) : Option (String × ℚ) :=
  match alookup r.performance_metrics metric with
  | none => best
  | some sc =>
    match best with
    | none => some (r.version_id, sc)
    | some b => if b.2 < sc then some (r.version_id, sc) else some b

/-- `get_best_performing_version`. -/
def get_best_performing_version (s : VMState) (t metric : String) :
    Option String :=
  ((list_versions s t).foldl (bestStep metric) none).map (fun p => p.1)

/-- The scan of `auto_rollback_on_degradation` over `versions[1:]`: the
first record carrying the metric, with its value. -/
def findPrev (tm : String) : List MetaRecord → Option (String × ℚ)
  | [] => none
  | r :: rs =>
    match alookup r.performance_metrics tm with
    | some v => some (r.version_id, v)
    | none => findPrev tm rs

/-- `auto_rollback_on_degradation`. -/
def auto_rollback_on_degradation (s : VMState) (t : String)
    (cm : List (String × ℚ)) (tm : String) (th : ℚ) : Bool × VMState :=
  match alookup cm tm with
  | none => (false, s)
  | some cur =>
    match findPrev tm ((list_versions s t).drop 1) with
    | none => (false, s)
    | some (pv, ps) =>
      if th < ps - cur then rollback_model s t pv else (false, s)

/-- The descending order `list_versions` establishes: an earlier element is
never `created_at`-smaller than a later one. -/
def descRel (a b : MetaRecord) : Prop :=
  strLt a.created_at b.created_at = false

/-- Separation of two type names: neither, extended with the underscore
separator, is a name-prefix of the other. -/
abbrev sepTypes (t t' : String) : Prop :=
  strStarts (t ++ "_") (t' ++ "_") = false ∧
  strStarts (t' ++ "_") (t ++ "_") = false

/-- The artifact files carrying the naming pattern of type `t`: exactly the
files the glob `{t}_*.joblib` matches. -/
def typedArtifacts (s : VMState) (t : String) :
    List (String × ArtifactEntry) :=
  s.artifacts.filter (fun p => strStarts (t ++ "_") p.1)

/-- The metadata files carrying the naming pattern of type `t`. -/
def typedMetadata (s : VMState) (t : String) : List (String × MetaRecord) :=
  s.metadata.filter (fun p => strStarts (t ++ "_") p.1)

/-- Metadata records are named consistently with their content, as every
record written by `save_model` is. -/
abbrev wfMeta (s : VMState) : Prop :=
  ∀ p ∈ s.metadata, p.1 = modelKey p.2.model_type p.2.version_id

/-- `a` and `b` agree on everything belonging to type `t'`. -/
def eqForType (a b : VMState) (t' : String) : Prop :=
  typedArtifacts a t' = typedArtifacts b t' ∧
  typedMetadata a t' = typedMetadata b t' ∧
  pointerOf a t' = pointerOf b t'

/-- The loop body of `get_best_performing_version` restated on already
extracted `(version_id, score)` pairs. -/
def pairStep (acc : Option (String × ℚ)) (x : String × ℚ) :
    Option (String × ℚ) :=
  match acc with
  | none => some x
  | some b => if b.2 < x.2 then some x else some b

/-- Spec-side view for C8: the versions of `t` that record `metric`, in
`list_versions` order, paired with their recorded scores. -/
def recordedScores (s : VMState) (t metric : String) : List (String × ℚ) :=
  (list_versions s t).filterMap
    (fun r => (alookup r.performance_metrics metric).map
      (fun v => (r.version_id, v)))

/-- The per-type frame property of claim C4: every mutating operation for
`t` leaves the state of `t'` unchanged, and listings for `t` surface no
record of `t'`. -/
def frameHolds (s : VMState) (t t' : String) : Prop :=
  (∀ vid, eqForType (delete_version s t vid).2 s t') ∧
  (∀ vid, eqForType (rollback_model s t vid).2 s t') ∧
  (∀ (blob : String) (extra : List (String × String))
    (pm : List (String × ℚ)) (vid now : String) (maxv : Nat)
    (cutoff : String),
    eqForType (save_model s t blob extra pm vid now maxv cutoff).2 s t') ∧
  (∀ r ∈ list_versions s t, r.model_type ≠ t')

/-- Shorthand for a metadata record shaped like `save_model` writes it. -/
def mkRec (t vid ca : String) (pm : List (String × ℚ)) : MetaRecord :=
  { model_type := t, version_id := vid, created_at := ca,
    model_path := "models/versions/" ++ t ++ "_" ++ vid ++ ".joblib",
    performance_metrics := pm, extra := [], last_updated := none }

/-! ### Concrete stores used by counterexamples and witnesses.
Metric values from the spec examples appear scaled by 100 (0.90 as 90)
so the rational literals stay integral. -/

def cutoff20 : String := "2020-01-01T00:00:00"

/-- One `save_model` call for type `m` with `max_versions = 2`. -/
def c1save (s : VMState) (vid ca : String) : VMState :=
  (save_model s "m" ("b" ++ vid) [] [] vid ca 2 cutoff20).2

def c1s1 : VMState := c1save ⟨[], [], []⟩ "v1" "2026-01-01T00:00:01"

def c1s2 : VMState := c1save c1s1 "v2" "2026-01-01T00:00:02"

def c1s3 : VMState := c1save c1s2 "v3" "2026-01-01T00:00:03"

def c1s4 : VMState := c1save c1s3 "v4" "2026-01-01T00:00:04"

def c1s5 : VMState := c1save c1s4 "v5" "2026-01-01T00:00:05"

def c1s6 : VMState := c1save c1s5 "v6" "2026-01-01T00:00:06"

/-- Five versions of type `m` present at once, the pointer at `v2`, which
the count rule alone (with `max_versions = 2`) would evict. -/
def c1w : VMState :=
  ⟨[("m_v1", ⟨"b1", "2026-01-01T00:00:01"⟩),
    ("m_v2", ⟨"b2", "2026-01-01T00:00:02"⟩),
    ("m_v3", ⟨"b3", "2026-01-01T00:00:03"⟩),
    ("m_v4", ⟨"b4", "2026-01-01T00:00:04"⟩),
    ("m_v5", ⟨"b5", "2026-01-01T00:00:05"⟩)],
   [("m_v1", mkRec "m" "v1" "2026-01-01T00:00:01" []),
    ("m_v2", mkRec "m" "v2" "2026-01-01T00:00:02" []),
    ("m_v3", mkRec "m" "v3" "2026-01-01T00:00:03" []),
    ("m_v4", mkRec "m" "v4" "2026-01-01T00:00:04" []),
    ("m_v5", mkRec "m" "v5" "2026-01-01T00:00:05" [])],
   [("m", "m_v2")]⟩

def c2s : VMState :=
  ⟨[("m_v1", ⟨"b1", "2026-01-01T00:00:01"⟩),
    ("m_v2", ⟨"b2", "2026-01-01T00:00:02"⟩)],
   [("m_v1", mkRec "m" "v1" "2026-01-01T00:00:01" []),
    ("m_v2", mkRec "m" "v2" "2026-01-01T00:00:02" [])],
   [("m", "m_v1")]⟩

def c3s : VMState :=
  ⟨[("m_v1", ⟨"b1", "2026-01-01T00:00:01"⟩)],
   [("m_v1", mkRec "m" "v1" "2026-01-01T00:00:01" [])],
   [("m", "m_v1")]⟩

/-- A store holding one version of the model type named `a_b`. -/
def c4bad : VMState :=
  ⟨[("a_b_v1", ⟨"blob", "2026-01-01T00:00:01"⟩)],
   [("a_b_v1", mkRec "a_b" "v1" "2026-01-01T00:00:01" [])], []⟩

def c4w : VMState :=
  ⟨[("a_v1", ⟨"ba", "2026-01-01T00:00:01"⟩),
    ("c_v1", ⟨"bc", "2026-01-01T00:00:02"⟩)],
   [("a_v1", mkRec "a" "v1" "2026-01-01T00:00:01" []),
    ("c_v1", mkRec "c" "v1" "2026-01-01T00:00:02" [])],
   [("a", "a_v1"), ("c", "c_v1")]⟩

/-- Older version `v1` of type `m` recording accuracy 90. -/
def c5prev : MetaRecord :=
  mkRec "m" "v1" "2026-01-01T00:00:01" [("accuracy", 90)]

/-- Newest version `v2` of type `m`, no recorded metrics. -/
def c5curr : MetaRecord := mkRec "m" "v2" "2026-01-01T00:00:02" []

def c5s : VMState :=
  ⟨[("m_v1", ⟨"b1", "2026-01-01T00:00:01"⟩),
    ("m_v2", ⟨"b2", "2026-01-01T00:00:02"⟩)],
   [("m_v1", c5prev), ("m_v2", c5curr)],
   [("m", "m_v2")]⟩

def c7recA : MetaRecord := mkRec "t" "a" "2026-01-01T00:00:01" []

def c7recB : MetaRecord := mkRec "t" "b" "2026-01-01T00:00:01" []

/-- Two versions with equal `created_at`, enumerated `a` before `b`. -/
def c7sA : VMState :=
  ⟨[("t_a", ⟨"ba", "2026-01-01T00:00:01"⟩),
    ("t_b", ⟨"bb", "2026-01-01T00:00:01"⟩)],
   [("t_a", c7recA), ("t_b", c7recB)], []⟩

/-- The same two versions, enumerated `b` before `a`. -/
def c7sB : VMState :=
  ⟨[("t_b", ⟨"bb", "2026-01-01T00:00:01"⟩),
    ("t_a", ⟨"ba", "2026-01-01T00:00:01"⟩)],
   [("t_a", c7recA), ("t_b", c7recB)], []⟩

/-- The spec's tie-break example: v1 oldest (90), v2 (95), v3 newest (95). -/
def c8s : VMState :=
  ⟨[("m_v1", ⟨"b1", "2026-01-01T00:00:01"⟩),
    ("m_v2", ⟨"b2", "2026-01-01T00:00:02"⟩),
    ("m_v3", ⟨"b3", "2026-01-01T00:00:03"⟩)],
   [("m_v1", mkRec "m" "v1" "2026-01-01T00:00:01" [("accuracy", 90)]),
    ("m_v2", mkRec "m" "v2" "2026-01-01T00:00:02" [("accuracy", 95)]),
    ("m_v3", mkRec "m" "v3" "2026-01-01T00:00:03" [("accuracy", 95)])],
   [("m", "m_v3")]⟩

def c9s0 : VMState :=
  ⟨[("m_v1", ⟨"b1", "2026-01-01T00:00:01"⟩)],
   [("m_v1", mkRec "m" "v1" "2026-01-01T00:00:01" [])],
   [("m", "m_v1")]⟩

def c9s1 : VMState :=
  (update_performance_metrics c9s0 "m" "v1" [("accuracy", 90)]
    "2026-01-02T00:00:00").2

/-- The record stored for `v1` after the accuracy update. -/
def c9r1 : MetaRecord :=
  { model_type := "m", version_id := "v1",
    created_at := "2026-01-01T00:00:01",
    model_path := "models/versions/m_v1.joblib",
    performance_metrics := [("accuracy", 90)], extra := [],
    last_updated := some "2026-01-02T00:00:00" }

def c9s2 : VMState :=
  (update_performance_metrics c9s1 "m" "v1" [("f1", 80)]
    "2026-01-02T00:00:01").2

/-- The record stored for `v1` after both metric updates. -/
def c9r2 : MetaRecord :=
  { model_type := "m", version_id := "v1",
    created_at := "2026-01-01T00:00:01",
    model_path := "models/versions/m_v1.joblib",
    performance_metrics := [("accuracy", 90), ("f1", 80)], extra := [],
    last_updated := some "2026-01-02T00:00:01" }

/-! ### Association-list lemmas -/

theorem alookup_cons {α : Type} (p : String × α) (l : List (String × α))
    (k : String) :
    alookup (p :: l) k = if p.1 = k then some p.2 else alookup l k := by
  by_cases h : p.1 = k
  · simp [alookup, List.find?_cons, h]
  · simp [alookup, List.find?_cons, h]

theorem alookup_append {α : Type} (l m : List (String × α)) (k : String) :
    alookup (l ++ m) k =
      match alookup l k with
      | some v => some v
      | none => alookup m k := by
  induction l with
  | nil => simp [alookup]
  | cons p ps ih =>
    rw [List.cons_append, alookup_cons, alookup_cons]
    by_cases h : p.1 = k
    · simp [h]
    · simp [h, ih]

theorem alookup_ainsert_self {α : Type} (l : List (String × α)) (k : String)
    (v : α) : alookup (ainsert l k v) k = some v := by
  induction l with
  | nil => simp [ainsert, alookup_cons]
  | cons p ps ih =>
    unfold ainsert
    by_cases hp : p.1 = k
    · rw [if_pos (by simp [hp]), alookup_cons, if_pos rfl]
    · rw [if_neg (by simp [hp]), alookup_cons, if_neg hp]
      exact ih

theorem alookup_ainsert_ne {α : Type} (l : List (String × α)) (k k' : String)
    (v : α) (h : k' ≠ k) : alookup (ainsert l k v) k' = alookup l k' := by
  induction l with
  | nil =>
    show alookup [(k, v)] k' = alookup [] k'
    rw [alookup_cons, if_neg (fun hc : k = k' => h hc.symm)]
  | cons p ps ih =>
    unfold ainsert
    by_cases hp : p.1 = k
    · rw [if_pos (by simp [hp]), alookup_cons, alookup_cons,
        if_neg (fun hc : k = k' => h hc.symm), if_neg (by rw [hp]; exact fun hc => h hc.symm)]
    · rw [if_neg (by simp [hp]), alookup_cons, alookup_cons]
      by_cases hk : p.1 = k'
      · rw [if_pos hk, if_pos hk]
      · rw [if_neg hk, if_neg hk]
        exact ih

theorem alookup_aerase_self {α : Type} (l : List (String × α)) (k : String) :
    alookup (aerase l k) k = none := by
  induction l with
  | nil => rfl
  | cons p ps ih =>
    unfold aerase
    by_cases hp : p.1 = k
    · rw [if_pos (by simp [hp])]
      exact ih
    · rw [if_neg (by simp [hp]), alookup_cons, if_neg hp]
      exact ih

theorem alookup_aerase_ne {α : Type} (l : List (String × α)) (k k' : String)
    (h : k' ≠ k) : alookup (aerase l k) k' = alookup l k' := by
  induction l with
  | nil => rfl
  | cons p ps ih =>
    unfold aerase
    by_cases hp : p.1 = k
    · rw [if_pos (by simp [hp]), alookup_cons,
        if_neg (by rw [hp]; exact fun hc => h hc.symm)]
      exact ih
    · rw [if_neg (by simp [hp]), alookup_cons, alookup_cons]
      by_cases hk : p.1 = k'
      · rw [if_pos hk, if_pos hk]
      · rw [if_neg hk, if_neg hk]
        exact ih

theorem aerase_eq_self {α : Type} (l : List (String × α)) (k : String)
    (h : alookup l k = none) : aerase l k = l := by
  induction l with
  | nil => rfl
  | cons p ps ih =>
    rw [alookup_cons] at h
    by_cases hp : p.1 = k
    · rw [if_pos hp] at h
      exact absurd h (by simp)
    · rw [if_neg hp] at h
      unfold aerase
      rw [if_neg (by simp [hp])]
      rw [ih h]

/-! ### Lexicographic-order lemmas -/

theorem lexLt_irrefl : ∀ l : List Char, lexLt l l = false := by
  intro l
  induction l with
  | nil => rfl
  | cons a xs ih => simp [lexLt, Nat.lt_irrefl, ih]

theorem lexLt_trans : ∀ a b c : List Char,
    lexLt a b = true → lexLt b c = true → lexLt a c = true := by
  intro a
  induction a with
  | nil =>
    intro b c h1 h2
    cases b with
    | nil => simp [lexLt] at h1
    | cons b0 bs =>
      cases c with
      | nil => simp [lexLt] at h2
      | cons c0 cs => simp [lexLt]
  | cons a0 as ih =>
    intro b c h1 h2
    cases b with
    | nil => simp [lexLt] at h1
    | cons b0 bs =>
      cases c with
      | nil => simp [lexLt] at h2
      | cons c0 cs =>
        simp only [lexLt] at h1 h2 ⊢
        by_cases hab : charNat a0 < charNat b0
        · by_cases hbc : charNat b0 < charNat c0
          · have hac : charNat a0 < charNat c0 := by omega
            simp [hac]
          · by_cases hcb : charNat c0 < charNat b0
            · simp [hbc, hcb] at h2
            · have hac : charNat a0 < charNat c0 := by omega
              simp [hac]
        · by_cases hba : charNat b0 < charNat a0
          · simp [hab, hba] at h1
          · have h1' : lexLt as bs = true := by simpa [hab, hba] using h1
            by_cases hbc : charNat b0 < charNat c0
            · have hac : charNat a0 < charNat c0 := by omega
              simp [hac]
            · by_cases hcb : charNat c0 < charNat b0
              · simp [hbc, hcb] at h2
              · have h2' : lexLt bs cs = true := by simpa [hbc, hcb] using h2
                have hnac : ¬ charNat a0 < charNat c0 := by omega
                have hnca : ¬ charNat c0 < charNat a0 := by omega
                simp [hnac, hnca]
                exact ih bs cs h1' h2'

theorem strLt_trans (a b c : String) (h1 : strLt a b = true)
    (h2 : strLt b c = true) : strLt a c = true :=
  lexLt_trans a.data b.data c.data h1 h2

theorem strLt_irrefl (a : String) : strLt a a = false :=
  lexLt_irrefl a.data

/-! ### Sorting lemmas -/

theorem mem_insertDesc (r x : MetaRecord) :
    ∀ l, x ∈ insertDesc r l ↔ x = r ∨ x ∈ l := by
  intro l
  induction l with
  | nil => simp [insertDesc]
  | cons y ys ih =>
    simp only [insertDesc]
    by_cases hb : strLt y.created_at r.created_at = true
    · rw [if_pos hb]
      simp only [List.mem_cons]
    · rw [if_neg hb]
      simp only [List.mem_cons, ih]
      tauto

theorem pairwise_insertDesc (r : MetaRecord) :
    ∀ l, l.Pairwise descRel → (insertDesc r l).Pairwise descRel := by
  intro l
  induction l with
  | nil => intro _; simp [insertDesc, descRel]
  | cons y ys ih =>
    intro hp
    rw [List.pairwise_cons] at hp
    obtain ⟨hy, hys⟩ := hp
    simp only [insertDesc]
    by_cases hb' : strLt y.created_at r.created_at = true
    case neg =>
      have hb : strLt y.created_at r.created_at = false := by
        simpa using hb'
      rw [if_neg hb', List.pairwise_cons]
      refine ⟨fun z hz => ?_, ih hys⟩
      rcases (mem_insertDesc r z ys).mp hz with rfl | hz'
      · exact hb
      · exact hy z hz'
    case pos =>
      have hb : strLt y.created_at r.created_at = true := hb'
      rw [if_pos hb', List.pairwise_cons]
      refine ⟨fun z hz => ?_, List.pairwise_cons.mpr ⟨hy, hys⟩⟩
      rcases List.mem_cons.mp hz with rfl | hz'
      · unfold descRel
        cases hc : strLt r.created_at z.created_at
        · rfl
        · exfalso
          have := strLt_trans _ _ _ hb hc
          rw [strLt_irrefl] at this
          exact Bool.noConfusion this
      · unfold descRel
        cases hc : strLt r.created_at z.created_at
        · rfl
        · exfalso
          have hyz := hy z hz'
          unfold descRel at hyz
          have := strLt_trans _ _ _ hb hc
          rw [this] at hyz
          exact Bool.noConfusion hyz

theorem pairwise_foldl_insertDesc :
    ∀ (l : List MetaRecord) (acc : List MetaRecord),
      acc.Pairwise descRel →
      (l.foldl (fun a r => insertDesc r a) acc).Pairwise descRel := by
  intro l
  induction l with
  | nil => intro acc h; simpa using h
  | cons r rs ih => intro acc h; exact ih _ (pairwise_insertDesc r acc h)

theorem pairwise_sortDesc (l : List MetaRecord) :
    (sortDesc l).Pairwise descRel := by
  unfold sortDesc
  exact pairwise_foldl_insertDesc l [] List.Pairwise.nil

theorem mem_foldl_insertDesc :
    ∀ (l acc : List MetaRecord) (x : MetaRecord),
      x ∈ l.foldl (fun a r => insertDesc r a) acc ↔ x ∈ l ∨ x ∈ acc := by
  intro l
  induction l with
  | nil => intro acc x; simp
  | cons r rs ih =>
    intro acc x
    rw [List.foldl_cons, ih, mem_insertDesc, List.mem_cons]
    tauto

theorem mem_sortDesc (l : List MetaRecord) (x : MetaRecord) :
    x ∈ sortDesc l ↔ x ∈ l := by
  unfold sortDesc
  rw [mem_foldl_insertDesc]
  simp

/-! ### String-name separation lemmas -/

theorem listStarts_append_self : ∀ a r : List Char,
    listStarts a (a ++ r) = true := by
  intro a r
  induction a with
  | nil => rfl
  | cons x xs ih => simp [listStarts, ih]

theorem listStarts_self (a : List Char) : listStarts a a = true := by
  simpa using listStarts_append_self a []

theorem listStarts_comparable : ∀ s a b : List Char,
    listStarts a s = true → listStarts b s = true →
    listStarts a b = true ∨ listStarts b a = true := by
  intro s
  induction s with
  | nil =>
    intro a b h1 h2
    cases a with
    | nil => left; rfl
    | cons x xs => simp [listStarts] at h1
  | cons s0 ss ih =>
    intro a b h1 h2
    cases a with
    | nil => left; rfl
    | cons a0 as =>
      cases b with
      | nil => right; rfl
      | cons b0 bs =>
        simp only [listStarts, Bool.and_eq_true, beq_iff_eq] at h1 h2
        obtain ⟨ha0, has⟩ := h1
        obtain ⟨hb0, hbs⟩ := h2
        subst ha0
        subst hb0
        rcases ih as bs has hbs with h | h
        · left; simp [listStarts, h]
        · right; simp [listStarts, h]

theorem strStarts_modelKey (t vid : String) :
    strStarts (t ++ "_") (modelKey t vid) = true := by
  unfold strStarts modelKey
  rw [String.data_append, String.data_append, String.data_append]
  exact listStarts_append_self _ _

theorem sepTypes_ne {t t' : String} (h : sepTypes t t') : t ≠ t' := by
  intro he
  subst he
  obtain ⟨h1, _⟩ := h
  unfold strStarts at h1
  rw [listStarts_self] at h1
  exact Bool.noConfusion h1

theorem sepTypes_not_starts {t t' : String} (h : sepTypes t t')
    (vid : String) : strStarts (t' ++ "_") (modelKey t vid) = false := by
  obtain ⟨hA, hB⟩ := h
  cases hb : strStarts (t' ++ "_") (modelKey t vid)
  · rfl
  · exfalso
    have h1 := strStarts_modelKey t vid
    unfold strStarts at hb h1 hA hB
    rcases listStarts_comparable (modelKey t vid).data _ _ hb h1 with hc | hc
    · rw [hB] at hc
      exact Bool.noConfusion hc
    · rw [hA] at hc
      exact Bool.noConfusion hc

theorem not_both_modelKey {t t' : String} (h : sepTypes t t') {k : String}
    (vid vid' : String) (h1 : k = modelKey t vid) (h2 : k = modelKey t' vid') :
    False := by
  have hA := strStarts_modelKey t vid
  have hB := strStarts_modelKey t' vid'
  rw [← h1] at hA
  rw [← h2] at hB
  obtain ⟨hS1, hS2⟩ := h
  unfold strStarts at hA hB hS1 hS2
  rcases listStarts_comparable k.data _ _ hA hB with hc | hc
  · rw [hS1] at hc
    exact Bool.noConfusion hc
  · rw [hS2] at hc
    exact Bool.noConfusion hc

/-! ### Per-type projections of the state and frame lemmas -/

theorem eqForType_refl (a : VMState) (t' : String) : eqForType a a t' :=
  ⟨rfl, rfl, rfl⟩

theorem eqForType_trans {a b c : VMState} {t' : String}
    (h1 : eqForType a b t') (h2 : eqForType b c t') : eqForType a c t' :=
  ⟨h1.1.trans h2.1, h1.2.1.trans h2.2.1, h1.2.2.trans h2.2.2⟩

theorem filter_aerase_of_neg {α : Type} (p : String → Bool) (k : String)
    (hp : p k = false) :
    ∀ l : List (String × α),
      (aerase l k).filter (fun q => p q.1) = l.filter (fun q => p q.1) := by
  intro l
  induction l with
  | nil => rfl
  | cons q qs ih =>
    unfold aerase
    by_cases hq : q.1 = k
    · rw [if_pos (by simp [hq]), ih, List.filter_cons,
        if_neg (by simp [hq, hp])]
    · rw [if_neg (by simp [hq]), List.filter_cons, List.filter_cons]
      by_cases hpq : p q.1 = true
      · rw [if_pos hpq, if_pos hpq, ih]
      · rw [if_neg hpq, if_neg hpq, ih]

theorem filter_ainsert_of_neg {α : Type} (p : String → Bool) (k : String)
    (v : α) (hp : p k = false) :
    ∀ l : List (String × α),
      (ainsert l k v).filter (fun q => p q.1) = l.filter (fun q => p q.1) := by
  intro l
  induction l with
  | nil =>
    show List.filter (fun q => p q.1) [(k, v)] = []
    rw [List.filter_cons, if_neg (by simp [hp])]
    rfl
  | cons q qs ih =>
    unfold ainsert
    by_cases hq : q.1 = k
    · rw [if_pos (by simp [hq]), List.filter_cons, List.filter_cons,
        if_neg (by simp [hp]), if_neg (by simp [hq, hp])]
    · rw [if_neg (by simp [hq]), List.filter_cons, List.filter_cons]
      by_cases hpq : p q.1 = true
      · rw [if_pos hpq, if_pos hpq, ih]
      · rw [if_neg hpq, if_neg hpq, ih]

theorem delete_version_eqForType {t t' : String} (h : sepTypes t t')
    (s : VMState) (vid : String) :
    eqForType (delete_version s t vid).2 s t' := by
  unfold delete_version
  by_cases hg : isCurrentGuard s t vid = true
  · rw [if_pos hg]
    exact eqForType_refl s t'
  · rw [if_neg hg]
    refine ⟨?_, ?_, rfl⟩
    · exact filter_aerase_of_neg _ _ (sepTypes_not_starts h vid) s.artifacts
    · exact filter_aerase_of_neg _ _ (sepTypes_not_starts h vid) s.metadata

theorem currentSwapDone_eqForType {t t' : String} (h : t ≠ t')
    (s : VMState) (target : String) :
    eqForType (currentSwapDone s t target) s t' := by
  refine ⟨rfl, rfl, ?_⟩
  show alookup (ainsert (aerase s.pointers t) t target) t' =
    alookup s.pointers t'
  rw [alookup_ainsert_ne _ _ _ _ (fun hc => h hc.symm),
    alookup_aerase_ne _ _ _ (fun hc => h hc.symm)]

theorem rollback_model_eqForType {t t' : String} (h : sepTypes t t')
    (s : VMState) (vid : String) :
    eqForType (rollback_model s t vid).2 s t' := by
  unfold rollback_model
  by_cases hb : (artifactAt s (modelKey t vid)).isSome = true
  · rw [if_pos hb]
    exact currentSwapDone_eqForType (sepTypes_ne h) s (modelKey t vid)
  · rw [if_neg hb]
    exact eqForType_refl s t'

theorem foldl_preserve {β : Type} (P : VMState → Prop)
    (step : VMState → β → VMState)
    (hstep : ∀ st b, P st → P (step st b)) :
    ∀ (l : List β) (st : VMState), P st → P (l.foldl step st) := by
  intro l
  induction l with
  | nil => intro st h; exact h
  | cons b bs ih => intro st h; exact ih (step st b) (hstep st b h)

theorem cleanup_eqForType {t t' : String} (h : sepTypes t t') (s : VMState)
    (maxv : Nat) (cutoff : String) :
    eqForType (cleanup_old_versions s t maxv cutoff) s t' := by
  have hstep1 : ∀ (st : VMState) (r : MetaRecord),
      eqForType st s t' →
      eqForType ((delete_version st t r.version_id).2) s t' :=
    fun st r hst =>
      eqForType_trans (delete_version_eqForType h st r.version_id) hst
  have hstep2 : ∀ (st : VMState) (r : MetaRecord),
      eqForType st s t' →
      eqForType (if strLt r.created_at cutoff then
        (delete_version st t r.version_id).2 else st) s t' := by
    intro st r hst
    by_cases hc : strLt r.created_at cutoff = true
    · rw [if_pos hc]
      exact hstep1 st r hst
    · rw [if_neg hc]
      exact hst
  unfold cleanup_old_versions cleanupAge cleanupCount
  apply foldl_preserve (fun st => eqForType st s t') _ hstep2
  by_cases hlen : maxv < (list_versions s t).length
  · rw [if_pos hlen]
    exact foldl_preserve (fun st => eqForType st s t') _ hstep1 _ s
      (eqForType_refl s t')
  · rw [if_neg hlen]
    exact eqForType_refl s t'

theorem save_model_eqForType {t t' : String} (h : sepTypes t t')
    (s : VMState) (blob : String) (extra : List (String × String))
    (pm : List (String × ℚ)) (vid now : String) (maxv : Nat)
    (cutoff : String) :
    eqForType (save_model s t blob extra pm vid now maxv cutoff).2 s t' := by
  unfold save_model
  apply eqForType_trans (cleanup_eqForType h _ maxv cutoff)
  apply eqForType_trans (currentSwapDone_eqForType (sepTypes_ne h) _ _)
  refine ⟨?_, ?_, rfl⟩
  · exact filter_ainsert_of_neg _ _ _ (sepTypes_not_starts h vid) s.artifacts
  · exact filter_ainsert_of_neg _ _ _ (sepTypes_not_starts h vid) s.metadata

theorem list_versions_model_type {s : VMState} {t t' : String}
    (hw : wfMeta s) (hsep : sepTypes t t') :
    ∀ r ∈ list_versions s t, r.model_type ≠ t' := by
  intro r hr
  unfold list_versions at hr
  rw [mem_sortDesc] at hr
  obtain ⟨p, hp, hrec⟩ := List.mem_map.mp hr
  subst hrec
  unfold recordFor
  cases hm : metadataAt s (modelKey t (splitRest p.1)) with
  | none =>
    simp only [hm]
    exact fun hc => sepTypes_ne hsep hc
  | some rec =>
    simp only [hm]
    intro hc
    unfold metadataAt alookup at hm
    cases hf : List.find? (fun q => q.1 == modelKey t (splitRest p.1))
        s.metadata with
    | none => rw [hf] at hm; exact Option.noConfusion hm
    | some q =>
      rw [hf] at hm
      have hq2 : q.2 = rec := Option.some.inj hm
      have hqmem := List.mem_of_find?_eq_some hf
      have hqkey := List.find?_some hf
      have hqk : q.1 = modelKey t (splitRest p.1) := by
        simpa using hqkey
      have hwq := hw q hqmem
      rw [hq2, hc] at hwq
      exact not_both_modelKey hsep _ _ hqk hwq

/-! ### Retention-sweep preservation lemmas (claim C1) -/

theorem delete_version_keeps_current {s : VMState} {t cur : String}
    {e : ArtifactEntry} (hp : pointerOf s t = some cur)
    (ha : artifactAt s cur = some e) (vid : String) :
    pointerOf (delete_version s t vid).2 t = some cur ∧
    artifactAt (delete_version s t vid).2 cur = some e ∧
    metadataAt (delete_version s t vid).2 cur = metadataAt s cur := by
  unfold delete_version
  by_cases hg : isCurrentGuard s t vid = true
  · rw [if_pos hg]
    exact ⟨hp, ha, rfl⟩
  · rw [if_neg hg]
    have hne : cur ≠ modelKey t vid := by
      intro he
      apply hg
      unfold isCurrentGuard
      rw [hp]
      show ((artifactAt s cur).isSome && (cur == modelKey t vid)) = true
      rw [ha, ← he]
      simp
    refine ⟨hp, ?_, ?_⟩
    · show alookup (aerase s.artifacts (modelKey t vid)) cur = some e
      rw [alookup_aerase_ne _ _ _ hne]
      exact ha
    · show alookup (aerase s.metadata (modelKey t vid)) cur = metadataAt s cur
      rw [alookup_aerase_ne _ _ _ hne]
      rfl

/-! ### Metric-merge lemmas (claim C9) -/

theorem alookup_not_in_keys {α : Type} {l : List (String × α)} {k : String}
    (h : k ∉ l.map Prod.fst) : alookup l k = none := by
  unfold alookup
  cases hf : List.find? (fun p => p.1 == k) l with
  | none => rfl
  | some q =>
    exfalso
    have hqk := List.find?_some hf
    have hqmem := List.mem_of_find?_eq_some hf
    apply h
    have hq1 : q.1 = k := by simpa using hqk
    exact List.mem_map.mpr ⟨q, hqmem, hq1⟩

theorem alookup_dictUpdate :
    ∀ (pm d : List (String × ℚ)), (pm.map Prod.fst).Nodup → ∀ k : String,
      alookup (dictUpdate d pm) k =
        match alookup pm k with
        | some v => some v
        | none => alookup d k := by
  intro pm
  induction pm with
  | nil => intro d _ k; rfl
  | cons kv rest ih =>
    intro d hnd k
    rw [List.map_cons] at hnd
    obtain ⟨hnot, hrest⟩ := List.nodup_cons.mp hnd
    show alookup (dictUpdate (ainsert d kv.1 kv.2) rest) k = _
    rw [ih (ainsert d kv.1 kv.2) hrest k]
    by_cases hk : k = kv.1
    · have hrn : alookup rest k = none := by
        apply alookup_not_in_keys
        rw [hk]
        exact hnot
      rw [hrn, alookup_cons, if_pos hk.symm]
      show alookup (ainsert d kv.1 kv.2) k = some kv.2
      rw [hk]
      exact alookup_ainsert_self d kv.1 kv.2
    · rw [alookup_cons, if_neg (fun hc => hk hc.symm)]
      cases hr : alookup rest k with
      | some v => rfl
      | none =>
        show alookup (ainsert d kv.1 kv.2) k = _
        rw [alookup_ainsert_ne _ _ _ _ hk]

/-! ### Degradation-monitor lemmas (claims C5 and C6) -/

theorem findPrev_eq_find? (tm : String) :
    ∀ l : List MetaRecord, findPrev tm l =
      (l.find? (fun r => (alookup r.performance_metrics tm).isSome)).bind
        (fun r => (alookup r.performance_metrics tm).map
          (fun v => (r.version_id, v))) := by
  intro l
  induction l with
  | nil => rfl
  | cons r rs ih =>
    unfold findPrev
    cases hv : alookup r.performance_metrics tm with
    | some v => simp [List.find?_cons, hv]
    | none => simp [List.find?_cons, hv, ih]

theorem auto_rollback_no_metric {s : VMState} {t : String}
    {cm : List (String × ℚ)} {tm : String} {th : ℚ}
    (h : alookup cm tm = none) :
    auto_rollback_on_degradation s t cm tm th = (false, s) := by
  unfold auto_rollback_on_degradation
  rw [h]

theorem auto_rollback_no_prev {s : VMState} {t : String}
    {cm : List (String × ℚ)} {tm : String} {th : ℚ} {cur : ℚ}
    (hcur : alookup cm tm = some cur)
    (hfind : ((list_versions s t).drop 1).find?
      (fun r => (alookup r.performance_metrics tm).isSome) = none) :
    auto_rollback_on_degradation s t cm tm th = (false, s) := by
  unfold auto_rollback_on_degradation
  rw [hcur, findPrev_eq_find?, hfind]
  rfl

theorem auto_rollback_hit {s : VMState} {t : String}
    {cm : List (String × ℚ)} {tm : String} {th : ℚ} {cur ps : ℚ}
    {r : MetaRecord} (hcur : alookup cm tm = some cur)
    (hfind : ((list_versions s t).drop 1).find?
      (fun r => (alookup r.performance_metrics tm).isSome) = some r)
    (hps : alookup r.performance_metrics tm = some ps)
    (hlt : th < ps - cur) :
    auto_rollback_on_degradation s t cm tm th =
      rollback_model s t r.version_id := by
  unfold auto_rollback_on_degradation
  rw [hcur, findPrev_eq_find?, hfind]
  have hb : ((some r).bind (fun q => (alookup q.performance_metrics tm).map
      (fun v => (q.version_id, v)))) = some (r.version_id, ps) := by
    show (alookup r.performance_metrics tm).map
      (fun v => (r.version_id, v)) = _
    rw [hps]
    rfl
  rw [hb]
  show (if th < ps - cur then rollback_model s t r.version_id
    else (false, s)) = _
  rw [if_pos hlt]

theorem auto_rollback_miss {s : VMState} {t : String}
    {cm : List (String × ℚ)} {tm : String} {th : ℚ} {cur ps : ℚ}
    {r : MetaRecord} (hcur : alookup cm tm = some cur)
    (hfind : ((list_versions s t).drop 1).find?
      (fun r => (alookup r.performance_metrics tm).isSome) = some r)
    (hps : alookup r.performance_metrics tm = some ps)
    (hnlt : ¬ th < ps - cur) :
    auto_rollback_on_degradation s t cm tm th = (false, s) := by
  unfold auto_rollback_on_degradation
  rw [hcur, findPrev_eq_find?, hfind]
  have hb : ((some r).bind (fun q => (alookup q.performance_metrics tm).map
      (fun v => (q.version_id, v)))) = some (r.version_id, ps) := by
    show (alookup r.performance_metrics tm).map
      (fun v => (r.version_id, v)) = _
    rw [hps]
    rfl
  rw [hb]
  show (if th < ps - cur then rollback_model s t r.version_id
    else (false, s)) = (false, s)
  rw [if_neg hnlt]

/-! ### Best-version selection lemmas (claim C8) -/

theorem bestStep_fold_eq (metric : String) :
    ∀ (l : List MetaRecord) (acc : Option (String × ℚ)),
      l.foldl (bestStep metric) acc =
        (l.filterMap (fun r => (alookup r.performance_metrics metric).map
          (fun v => (r.version_id, v)))).foldl pairStep acc := by
  intro l
  induction l with
  | nil => intro acc; rfl
  | cons r rs ih =>
    intro acc
    rw [List.foldl_cons]
    cases hv : alookup r.performance_metrics metric with
    | none =>
      have hstep : bestStep metric acc r = acc := by
        unfold bestStep
        rw [hv]
      rw [hstep, ih, List.filterMap_cons, hv]
      try rfl
    | some v =>
      have hstep : bestStep metric acc r = pairStep acc (r.version_id, v) := by
        unfold bestStep pairStep
        rw [hv]
      rw [hstep, ih, List.filterMap_cons, hv]
      try rfl

theorem pairStep_fold_char :
    ∀ (xs : List (String × ℚ)) (a : String × ℚ),
      ∃ q, xs.foldl pairStep (some a) = some q ∧
        ((q = a ∧ ∀ x ∈ xs, x.2 ≤ a.2) ∨
         (∃ pre y post, xs = pre ++ y :: post ∧ q = y ∧ a.2 < y.2 ∧
           (∀ z ∈ pre, z.2 < y.2) ∧ (∀ z ∈ post, z.2 ≤ y.2))) := by
  intro xs
  induction xs with
  | nil => intro a; exact ⟨a, rfl, Or.inl ⟨rfl, by simp⟩⟩
  | cons x0 rest ih =>
    intro a
    by_cases hgt : a.2 < x0.2
    · have hstep : pairStep (some a) x0 = some x0 := by
        show (if a.2 < x0.2 then some x0 else some a) = some x0
        rw [if_pos hgt]
      obtain ⟨q, hq, hcase⟩ := ih x0
      refine ⟨q, ?_, ?_⟩
      · rw [List.foldl_cons, hstep]
        exact hq
      · rcases hcase with ⟨hqa, hall⟩ | ⟨pre, y, post, hxs, hqy, hlt, hpre, hpost⟩
        · right
          exact ⟨[], x0, rest, rfl, hqa, hgt, by simp, hall⟩
        · right
          refine ⟨x0 :: pre, y, post, by rw [hxs, List.cons_append], hqy,
            lt_trans hgt hlt, ?_, hpost⟩
          intro z hz
          rcases List.mem_cons.mp hz with rfl | hz'
          · exact hlt
          · exact hpre z hz'
    · have hstep : pairStep (some a) x0 = some a := by
        show (if a.2 < x0.2 then some x0 else some a) = some a
        rw [if_neg hgt]
      obtain ⟨q, hq, hcase⟩ := ih a
      refine ⟨q, ?_, ?_⟩
      · rw [List.foldl_cons, hstep]
        exact hq
      · rcases hcase with ⟨hqa, hall⟩ | ⟨pre, y, post, hxs, hqy, hlt, hpre, hpost⟩
        · left
          refine ⟨hqa, fun z hz => ?_⟩
          rcases List.mem_cons.mp hz with rfl | hz'
          · exact le_of_not_lt hgt
          · exact hall z hz'
        · right
          refine ⟨x0 :: pre, y, post, by rw [hxs, List.cons_append], hqy,
            hlt, ?_, hpost⟩
          intro z hz
          rcases List.mem_cons.mp hz with rfl | hz'
          · exact lt_of_le_of_lt (le_of_not_lt hgt) hlt
          · exact hpre z hz'

/-! ## Claims C1 - C3 -/

/-- Claim C1, counterexample: with `max_versions = 2`, the sweeps already
triggered by saving v1..v5 delete v2 (the fourth save's sweep evicts it,
since by then the pointer is at v4), so after the five saves v2 is no
longer loadable, `rollback_model` to v2 fails without mutating anything,
and after the next save's sweep v2 is still gone. -/
theorem C1_retention_counterexample :
    load_model_version c1s2 "m" "v2" = some "bv2" ∧
    load_model_version c1s5 "m" "v2" = none ∧
    rollback_model c1s5 "m" "v2" = (false, c1s5) ∧
    pointerOf c1s6 "m" = some "m_v6" ∧
    load_model_version c1s6 "m" "v2" = none := by
  decide

/-- Claim C1, amended: the retention sweep never deletes the version the
CurrentPointer references at the time the sweep runs: whenever the pointer
of `t` names a version whose artifact exists, the sweep preserves that
artifact, its metadata record, and the pointer itself, whatever the
version's rank in the count ordering or its age. (The literal v1..v5
scenario cannot arise: the saves' own sweeps remove v2 before the
rollback, as the counterexample shows.) -/
theorem C1_sweep_never_deletes_current (s : VMState) (t : String)
    (maxv : Nat) (cutoff : String) (cur : String) (e : ArtifactEntry)
    (hp : pointerOf s t = some cur) (ha : artifactAt s cur = some e) :
    pointerOf (cleanup_old_versions s t maxv cutoff) t = some cur ∧
    artifactAt (cleanup_old_versions s t maxv cutoff) cur = some e ∧
    metadataAt (cleanup_old_versions s t maxv cutoff) cur =
      metadataAt s cur := by
  have hstep1 : ∀ (st : VMState) (r : MetaRecord),
      (pointerOf st t = some cur ∧ artifactAt st cur = some e ∧
        metadataAt st cur = metadataAt s cur) →
      (pointerOf (delete_version st t r.version_id).2 t = some cur ∧
        artifactAt (delete_version st t r.version_id).2 cur = some e ∧
        metadataAt (delete_version st t r.version_id).2 cur =
          metadataAt s cur) := by
    intro st r hst
    obtain ⟨h1, h2, h3⟩ := hst
    obtain ⟨g1, g2, g3⟩ := delete_version_keeps_current h1 h2 r.version_id
    exact ⟨g1, g2, g3.trans h3⟩
  have hstep2 : ∀ (st : VMState) (r : MetaRecord),
      (pointerOf st t = some cur ∧ artifactAt st cur = some e ∧
        metadataAt st cur = metadataAt s cur) →
      (pointerOf (if strLt r.created_at cutoff then
          (delete_version st t r.version_id).2 else st) t = some cur ∧
        artifactAt (if strLt r.created_at cutoff then
          (delete_version st t r.version_id).2 else st) cur = some e ∧
        metadataAt (if strLt r.created_at cutoff then
          (delete_version st t r.version_id).2 else st) cur =
          metadataAt s cur) := by
    intro st r hst
    by_cases hc : strLt r.created_at cutoff = true
    · rw [if_pos hc]
      exact hstep1 st r hst
    · rw [if_neg hc]
      exact hst
  unfold cleanup_old_versions cleanupAge cleanupCount
  apply foldl_preserve
    (fun st => pointerOf st t = some cur ∧ artifactAt st cur = some e ∧
      metadataAt st cur = metadataAt s cur) _ hstep2
  by_cases hlen : maxv < (list_versions s t).length
  · rw [if_pos hlen]
    exact foldl_preserve _ _ hstep1 _ s ⟨hp, ha, rfl⟩
  · rw [if_neg hlen]
    exact ⟨hp, ha, rfl⟩

/-- Claim C1, witness: a store holding v1..v5 of type `m`, the pointer at
v2, `max_versions = 2`: the sweep keeps v2 (pointer, artifact, metadata)
even though count-ranking alone would evict it, while v1 is deleted. -/
theorem C1_sweep_witness :
    (pointerOf c1w "m" = some "m_v2" ∧
      artifactAt c1w "m_v2" = some ⟨"b2", "2026-01-01T00:00:02"⟩) ∧
    (pointerOf (cleanup_old_versions c1w "m" 2 cutoff20) "m" =
        some "m_v2" ∧
      artifactAt (cleanup_old_versions c1w "m" 2 cutoff20) "m_v2" =
        some ⟨"b2", "2026-01-01T00:00:02"⟩ ∧
      metadataAt (cleanup_old_versions c1w "m" 2 cutoff20) "m_v2" =
        metadataAt c1w "m_v2") ∧
    artifactAt (cleanup_old_versions c1w "m" 2 cutoff20) "m_v1" = none :=
  ⟨⟨by decide, by decide⟩,
   C1_sweep_never_deletes_current c1w "m" 2 cutoff20 "m_v2"
     ⟨"b2", "2026-01-01T00:00:02"⟩ (by decide) (by decide),
   by decide⟩

/-- Claim C2, counterexample: during `rollback_model` from v1 to v2 the
pointer update passes through an intermediate state in which the current
pointer is missing entirely: it is delete-then-recreate, not an atomic
rename, refuting the claim's "never a transient missing state". -/
theorem C2_pointer_counterexample :
    pointerOf c2s "m" = some "m_v1" ∧
    rollback_model c2s "m" "v2" = (true, currentSwapDone c2s "m" "m_v2") ∧
    pointerOf (currentSwapMid c2s "m") "m" = none ∧
    pointerOf (currentSwapDone c2s "m" "m_v2") "m" = some "m_v2" := by
  decide

/-- Claim C2, amended: every pointer update (shared by `save_model` and
`rollback_model`) settles to exactly the new target, but it is performed
as unlink followed by symlink creation, so the intermediate state observes
no pointer at all. -/
theorem C2_pointer_update_behavior (s : VMState) (t target : String) :
    pointerOf (currentSwapMid s t) t = none ∧
    pointerOf (currentSwapDone s t target) t = some target := by
  constructor
  · exact alookup_aerase_self s.pointers t
  · show alookup (ainsert (aerase s.pointers t) t target) t = some target
    exact alookup_ainsert_self (aerase s.pointers t) t target

/-- Claim C3: if `save_model` fails while persisting the artifact or the
metadata record (before the pointer swap), a StorageError surfaces, the
pointer store is untouched, every previously stored artifact is still
readable unchanged, and the metadata store is unchanged (given a fresh
version id, which timestamp-derived ids provide outside the collision
window the spec declares undefined). -/
theorem C3_save_failure_preserves_state (s : VMState) (t blob : String)
    (extra : List (String × String)) (pm : List (String × ℚ))
    (vid now : String) (maxv : Nat) (cutoff : String) (fp : SaveFail)
    (hfresh : artifactAt s (modelKey t vid) = none) :
    (save_model_attempt s t blob extra pm vid now maxv cutoff (some fp)).1 =
      Except.error StorageError.ioFailure ∧
    (save_model_attempt s t blob extra pm vid now maxv cutoff
      (some fp)).2.pointers = s.pointers ∧
    (∀ k a, alookup s.artifacts k = some a →
      alookup (save_model_attempt s t blob extra pm vid now maxv cutoff
        (some fp)).2.artifacts k = some a) ∧
    (save_model_attempt s t blob extra pm vid now maxv cutoff
      (some fp)).2.metadata = s.metadata := by
  cases fp with
  | atArtifact => exact ⟨rfl, rfl, fun k a h => h, rfl⟩
  | atMetadata =>
    refine ⟨rfl, rfl, ?_, rfl⟩
    intro k a h
    have hk : k ≠ modelKey t vid := by
      intro he
      rw [he] at h
      unfold artifactAt at hfresh
      rw [hfresh] at h
      exact Option.noConfusion h
    show alookup (ainsert s.artifacts (modelKey t vid) ⟨blob, now⟩) k = some a
    rw [alookup_ainsert_ne _ _ _ _ hk]
    exact h

/-- Claim C3, witness: metadata write fails while saving v2 over a store
whose current version is v1: the error surfaces, v1's artifact, metadata
and the pointer are all unchanged. -/
theorem C3_save_failure_witness :
    artifactAt c3s (modelKey "m" "v2") = none ∧
    (save_model_attempt c3s "m" "b2" [] [] "v2" "2026-01-01T00:00:02" 10
        cutoff20 (some SaveFail.atMetadata)).1 =
      Except.error StorageError.ioFailure ∧
    (save_model_attempt c3s "m" "b2" [] [] "v2" "2026-01-01T00:00:02" 10
      cutoff20 (some SaveFail.atMetadata)).2.pointers = c3s.pointers ∧
    alookup (save_model_attempt c3s "m" "b2" [] [] "v2"
      "2026-01-01T00:00:02" 10 cutoff20
      (some SaveFail.atMetadata)).2.artifacts "m_v1" =
      some ⟨"b1", "2026-01-01T00:00:01"⟩ ∧
    (save_model_attempt c3s "m" "b2" [] [] "v2" "2026-01-01T00:00:02" 10
      cutoff20 (some SaveFail.atMetadata)).2.metadata = c3s.metadata :=
  have h := C3_save_failure_preserves_state c3s "m" "b2" [] [] "v2"
    "2026-01-01T00:00:02" 10 cutoff20 SaveFail.atMetadata (by decide)
  ⟨by decide, h.1, h.2.1,
   h.2.2.1 "m_v1" ⟨"b1", "2026-01-01T00:00:01"⟩ (by decide), h.2.2.2⟩

/-! ## Claims C4 - C7 -/

/-- Claim C4, counterexample: the glob-and-split naming convention lets
distinct model types interfere when one type's name extends the other's
with an underscore: `list_versions "a"` on a store holding only a version
of type `a_b` returns that foreign version (with the version id
mis-parsed), so the listing for `a` is not free of `a_b`'s versions. -/
theorem C4_partition_counterexample :
    (list_versions c4bad "a").map (fun r => r.model_type) = ["a_b"] ∧
    "a" ≠ "a_b" ∧
    (list_versions c4bad "a").map (fun r => r.version_id) = ["v1"] := by
  decide

/-- Claim C4, amended: state partitions cleanly by model_type for every
pair of types neither of which, extended with the underscore separator, is
a name-prefix of the other (`sepTypes`): each operation invoked for `t`
(save including its sweep, delete, rollback) leaves the artifacts,
metadata and pointer of `t'` unchanged, and in a name-consistent store
(`wfMeta`) the listing for `t` contains no record of `t'`. -/
theorem C4_partition_by_type (s : VMState) (t t' : String)
    (hsep : sepTypes t t') (hwf : wfMeta s) : frameHolds s t t' :=
  ⟨fun vid => delete_version_eqForType hsep s vid,
   fun vid => rollback_model_eqForType hsep s vid,
   fun blob extra pm vid now maxv cutoff =>
     save_model_eqForType hsep s blob extra pm vid now maxv cutoff,
   list_versions_model_type hwf hsep⟩

/-- Claim C4, witness: the separation and well-formedness hypotheses hold
for types `a` and `c` on a concrete two-type store, so the frame property
holds there. -/
theorem C4_partition_witness :
    sepTypes "a" "c" ∧ wfMeta c4w ∧ frameHolds c4w "a" "c" :=
  ⟨by decide, by decide, C4_partition_by_type c4w "a" "c" (by decide)
    (by decide)⟩

/-- Claim C5: `auto_rollback_on_degradation` returns `(false, s)` when the
threshold metric is absent from the supplied metrics, or when no version
after the head of the time-descending listing records it; otherwise, with
`previous_score` read off the first such version, it returns exactly
`rollback_model` to that version when `previous_score - current` is
strictly above the threshold, and `(false, s)` otherwise. -/
theorem C5_auto_rollback_spec (s : VMState) (t : String)
    (cm : List (String × ℚ)) (tm : String) (th : ℚ) :
    (alookup cm tm = none →
      auto_rollback_on_degradation s t cm tm th = (false, s)) ∧
    (∀ cur, alookup cm tm = some cur →
      (((list_versions s t).drop 1).find?
          (fun r => (alookup r.performance_metrics tm).isSome) = none →
        auto_rollback_on_degradation s t cm tm th = (false, s)) ∧
      (∀ r ps, ((list_versions s t).drop 1).find?
          (fun r => (alookup r.performance_metrics tm).isSome) = some r →
        alookup r.performance_metrics tm = some ps →
        (th < ps - cur →
          auto_rollback_on_degradation s t cm tm th =
            rollback_model s t r.version_id) ∧
        (¬ th < ps - cur →
          auto_rollback_on_degradation s t cm tm th = (false, s)))) :=
  ⟨fun h => auto_rollback_no_metric h,
   fun cur hcur =>
     ⟨fun hfind => auto_rollback_no_prev hcur hfind,
      fun r ps hfind hps =>
        ⟨fun hlt => auto_rollback_hit hcur hfind hps hlt,
         fun hnlt => auto_rollback_miss hcur hfind hps hnlt⟩⟩⟩

/-- Claim C5, witness: the spec's two examples (values scaled by 100):
current 70 against recorded 90 with threshold 5 rolls back (returns
`rollback_model`'s result `true`, pointer moved to v1); current 88
(degradation 2) returns false with the state unchanged. -/
theorem C5_auto_rollback_witness :
    auto_rollback_on_degradation c5s "m" [("accuracy", 70)] "accuracy" 5 =
      rollback_model c5s "m" "v1" ∧
    rollback_model c5s "m" "v1" = (true, currentSwapDone c5s "m" "m_v1") ∧
    pointerOf (currentSwapDone c5s "m" "m_v1") "m" = some "m_v1" ∧
    pointerOf c5s "m" = some "m_v2" ∧
    auto_rollback_on_degradation c5s "m" [("accuracy", 88)] "accuracy" 5 =
      (false, c5s) := by
  refine ⟨?_, by decide, by decide, by decide, ?_⟩
  · exact (((C5_auto_rollback_spec c5s "m" [("accuracy", 70)] "accuracy"
      5).2 (70 : ℚ) (by decide)).2 c5prev (90 : ℚ) (by decide)
      (by decide)).1 (by norm_num)
  · exact (((C5_auto_rollback_spec c5s "m" [("accuracy", 88)] "accuracy"
      5).2 (88 : ℚ) (by decide)).2 c5prev (90 : ℚ) (by decide)
      (by decide)).2 (by norm_num)

/-- Claim C6, counterexample: with a negative degradation_threshold the
code rolls back even though the current metric equals the nearest prior
value (degradation 0), so the claim's "for every value of
degradation_threshold" fails: here it returns true and moves the pointer. -/
theorem C6_negative_threshold_counterexample :
    auto_rollback_on_degradation c5s "m" [("accuracy", 90)] "accuracy"
      (-1) = (true, currentSwapDone c5s "m" "m_v1") ∧
    pointerOf c5s "m" = some "m_v2" ∧
    pointerOf (currentSwapDone c5s "m" "m_v1") "m" = some "m_v1" := by
  refine ⟨?_, by decide, by decide⟩
  have hcur : alookup [("accuracy", (90 : ℚ))] "accuracy" = some 90 := by
    decide
  have hfind : ((list_versions c5s "m").drop 1).find?
      (fun r => (alookup r.performance_metrics "accuracy").isSome) =
      some c5prev := by decide
  have hps : alookup c5prev.performance_metrics "accuracy" = some 90 := by
    decide
  have h : auto_rollback_on_degradation c5s "m" [("accuracy", 90)]
      "accuracy" (-1) = rollback_model c5s "m" c5prev.version_id :=
    auto_rollback_hit hcur hfind hps (by norm_num)
  exact h.trans (by decide)

/-- Claim C6, amended: whenever the current metric value is at least the
nearest prior recorded value (degradation zero or negative) and the
degradation threshold is nonnegative, the call returns false with the
state unchanged. -/
theorem C6_no_rollback_on_improvement (s : VMState) (t : String)
    (cm : List (String × ℚ)) (tm : String) (th : ℚ) (cur ps : ℚ)
    (r : MetaRecord) (hcur : alookup cm tm = some cur)
    (hfind : ((list_versions s t).drop 1).find?
      (fun r => (alookup r.performance_metrics tm).isSome) = some r)
    (hps : alookup r.performance_metrics tm = some ps)
    (hle : ps ≤ cur) (hth : 0 ≤ th) :
    auto_rollback_on_degradation s t cm tm th = (false, s) :=
  auto_rollback_miss hcur hfind hps
    (not_lt.mpr (le_trans (sub_nonpos.mpr hle) hth))

/-- Claim C6, witness: current metric equal to the recorded prior (90 vs
90) with the nonnegative threshold 5: no rollback, state unchanged. -/
theorem C6_no_rollback_witness :
    alookup ([("accuracy", (90 : ℚ))]) "accuracy" = some 90 ∧
    auto_rollback_on_degradation c5s "m" [("accuracy", 90)] "accuracy" 5 =
      (false, c5s) :=
  ⟨by decide, C6_no_rollback_on_improvement c5s "m" [("accuracy", 90)]
    "accuracy" (5 : ℚ) (90 : ℚ) (90 : ℚ) c5prev (by decide) (by decide)
    (by decide) (by norm_num) (by norm_num)⟩

/-- Claim C7, counterexample: two stores holding exactly the same two
versions (equal `created_at`), differing only in directory enumeration
order, produce differently ordered listings, so ties are not broken by
version-id string order (which would make the output a function of the
version set alone). -/
theorem C7_tiebreak_counterexample :
    (list_versions c7sA "t").map (fun r => r.version_id) = ["a", "b"] ∧
    (list_versions c7sB "t").map (fun r => r.version_id) = ["b", "a"] ∧
    c7sB.artifacts = c7sA.artifacts.reverse ∧
    c7sB.metadata = c7sA.metadata ∧
    c7sB.pointers = c7sA.pointers ∧
    c7recA.created_at = c7recB.created_at := by
  decide

/-- Claim C7, amended: `list_versions` is sorted by `created_at`
descending (no earlier element is `created_at`-smaller than a later one);
ties between equal `created_at` keep the store's enumeration order (the
sort is stable), as the two concrete listings show, rather than being
broken by version-id order. -/
theorem C7_listing_sorted :
    (∀ (s : VMState) (t : String), (list_versions s t).Pairwise descRel) ∧
    (list_versions c7sA "t" = [c7recA, c7recB] ∧
     list_versions c7sB "t" = [c7recB, c7recA]) :=
  ⟨fun s t => pairwise_sortDesc _, by decide, by decide⟩

/-! ## Claims C8 - C10 -/

/-- Claim C8: `get_best_performing_version` returns none exactly when no
version of the type records the metric; otherwise it returns the
version_id of the first entry, in `list_versions` order, achieving the
strictly greatest recorded value: every earlier scored entry is strictly
below it and every later one is at most it. -/
theorem C8_best_version_selection (s : VMState) (t metric : String) :
    (get_best_performing_version s t metric = none ↔
      recordedScores s t metric = []) ∧
    (∀ v, get_best_performing_version s t metric = some v →
      ∃ sc pre post, recordedScores s t metric = pre ++ (v, sc) :: post ∧
        (∀ x ∈ pre, x.2 < sc) ∧ (∀ x ∈ post, x.2 ≤ sc)) := by
  have htrans : (list_versions s t).foldl (bestStep metric) none =
      (recordedScores s t metric).foldl pairStep none :=
    bestStep_fold_eq metric (list_versions s t) none
  unfold get_best_performing_version
  rw [htrans]
  cases hsc : recordedScores s t metric with
  | nil =>
    constructor
    · simp
    · intro v hv
      simp at hv
  | cons x xs =>
    rw [List.foldl_cons]
    have hinit : pairStep none x = some x := rfl
    rw [hinit]
    obtain ⟨q, hq, hcase⟩ := pairStep_fold_char xs x
    rw [hq]
    constructor
    · constructor
      · intro hn
        simp at hn
      · intro hl
        exact absurd hl (by simp)
    · intro v hv
      have hv' : q.1 = v := by simpa using hv
      rcases hcase with ⟨hqx, hall⟩ |
        ⟨pre, y, post, hxs, hqy, hlt, hpre, hpost⟩
      · refine ⟨x.2, [], xs, ?_, by simp, hall⟩
        rw [← hv', hqx]
        rfl
      · refine ⟨y.2, x :: pre, post, ?_, ?_, hpost⟩
        · rw [hxs, ← hv', hqy, List.cons_append]
        · intro z hz
          rcases List.mem_cons.mp hz with rfl | hz'
          · exact hlt
          · exact hpre z hz'

/-- Claim C8, witness: the spec's tie-break example (values scaled by
100): v1 oldest at 90, v2 at 95, v3 newest at 95 - the selected version is
v3, the most recent of the tied maxima. -/
theorem C8_best_version_witness :
    get_best_performing_version c8s "m" "accuracy" = some "v3" ∧
    (∃ sc pre post, recordedScores c8s "m" "accuracy" =
        pre ++ (("v3", sc) : String × ℚ) :: post ∧
      (∀ x ∈ pre, x.2 < sc) ∧ (∀ x ∈ post, x.2 ≤ sc)) :=
  ⟨by decide,
   (C8_best_version_selection c8s "m" "accuracy").2 "v3" (by decide)⟩

/-- Claim C9: `update_performance_metrics` returns false without mutation
when no metadata record exists for the version; on success it returns
true, merge-updates the metrics (keys of the new map win, every other
existing key is preserved), stamps `last_updated`, leaves the record's
other fields, all other metadata records, the artifacts and the pointers
unchanged. (The new map is assumed duplicate-free, as a Python dict is by
construction.) -/
theorem C9_metrics_merge (s : VMState) (t vid : String)
    (pm : List (String × ℚ)) (now : String) :
    (metadataAt s (modelKey t vid) = none →
      update_performance_metrics s t vid pm now = (false, s)) ∧
    (∀ r, metadataAt s (modelKey t vid) = some r →
      (pm.map Prod.fst).Nodup →
      (update_performance_metrics s t vid pm now).1 = true ∧
      ∃ r', metadataAt (update_performance_metrics s t vid pm now).2
          (modelKey t vid) = some r' ∧
        (∀ k, alookup r'.performance_metrics k =
          match alookup pm k with
          | some v => some v
          | none => alookup r.performance_metrics k) ∧
        r'.last_updated = some now ∧
        r'.model_type = r.model_type ∧
        r'.version_id = r.version_id ∧
        r'.created_at = r.created_at ∧
        (∀ k', k' ≠ modelKey t vid →
          metadataAt (update_performance_metrics s t vid pm now).2 k' =
            metadataAt s k') ∧
        (update_performance_metrics s t vid pm now).2.artifacts =
          s.artifacts ∧
        (update_performance_metrics s t vid pm now).2.pointers =
          s.pointers) := by
  constructor
  · intro h
    unfold update_performance_metrics
    rw [h]
  · intro r hr hnd
    unfold update_performance_metrics
    rw [hr]
    refine ⟨rfl, { r with
        performance_metrics := dictUpdate r.performance_metrics pm,
        last_updated := some now }, ?_, ?_, rfl, rfl, rfl, rfl, ?_, rfl,
      rfl⟩
    · exact alookup_ainsert_self _ _ _
    · intro k
      exact alookup_dictUpdate pm r.performance_metrics hnd k
    · intro k' hk'
      show alookup (ainsert s.metadata (modelKey t vid) _) k' =
        metadataAt s k'
      rw [alookup_ainsert_ne _ _ _ _ hk']
      rfl

/-- Claim C9, witness: updating (via the theorem) v1's metrics with
accuracy and then with f1 leaves a record carrying both keys, with
`last_updated` stamped by the second call. -/
theorem C9_metrics_merge_witness :
    metadataAt c9s1 (modelKey "m" "v1") = some c9r1 ∧
    (update_performance_metrics c9s1 "m" "v1" [("f1", 80)]
      "2026-01-02T00:00:01").1 = true ∧
    metadataAt c9s2 (modelKey "m" "v1") = some c9r2 ∧
    alookup c9r2.performance_metrics "accuracy" = some 90 ∧
    alookup c9r2.performance_metrics "f1" = some 80 :=
  have h := (C9_metrics_merge c9s1 "m" "v1" [("f1", 80)]
    "2026-01-02T00:00:01").2 c9r1 (by decide) (by decide)
  ⟨by decide, h.1, by decide, by decide, by decide⟩

/-- Claim C10: deleting a version id that names no stored version at all
(no artifact, no metadata, not the pointer's target) returns true and
leaves the store exactly unchanged - an unknown version is reported as
successfully deleted. -/
theorem C10_delete_unknown_returns_true (s : VMState) (t vid : String)
    (ha : artifactAt s (modelKey t vid) = none)
    (hm : metadataAt s (modelKey t vid) = none)
    (hp : pointerOf s t ≠ some (modelKey t vid)) :
    delete_version s t vid = (true, s) := by
  unfold delete_version
  have hg : isCurrentGuard s t vid = false := by
    unfold isCurrentGuard
    cases hpc : pointerOf s t with
    | none => rfl
    | some cur =>
      have hne : cur ≠ modelKey t vid := by
        intro he
        exact hp (by rw [hpc, he])
      show ((artifactAt s cur).isSome && (cur == modelKey t vid)) = false
      have hb : (cur == modelKey t vid) = false := by simp [hne]
      rw [hb, Bool.and_false]
  rw [if_neg (fun hc => by rw [hg] at hc; exact Bool.noConfusion hc)]
  unfold artifactAt at ha
  unfold metadataAt at hm
  rw [aerase_eq_self s.artifacts _ ha, aerase_eq_self s.metadata _ hm]

/-- Claim C10, witness: deleting the unknown version v9 from a store whose
current version is v1 returns true with the store unchanged. -/
theorem C10_delete_unknown_witness :
    artifactAt c3s (modelKey "m" "v9") = none ∧
    metadataAt c3s (modelKey "m" "v9") = none ∧
    pointerOf c3s "m" ≠ some (modelKey "m" "v9") ∧
    delete_version c3s "m" "v9" = (true, c3s) :=
  ⟨by decide, by decide, by decide,
   C10_delete_unknown_returns_true c3s "m" "v9" (by decide) (by decide)
     (by decide)⟩

end VMgr
